import Mathlib

/-!
Verification of the xArmViz camera / lighting core.

A shallow embedding of the camera-geometry, camera-controller, light-registry
and instance-lowering code of the repository, together with theorems settling
the specification claims.

Modelling conventions:
* `f32` arithmetic is idealized as real arithmetic (`ℝ`); `0.1f32` is the
  real number `1/10`, angles in degrees are converted to radians exactly.
* cgmath points (`Point3`) and vectors (`Vec3`) are both modelled by
  `Vec3` below (a point is identified with its coordinate vector, which is
  exactly what `EuclideanSpace::to_vec` / `from_vec` do in the source).
* cgmath 4x4 matrices are modelled by `Matrix (Fin 4) (Fin 4) ℝ` in the
  mathematical (row, column) convention; cgmath stores columns, and its
  `Matrix4::new(c0.., c1.., c2.., c3..)` constructor is transcribed
  accordingly (the k-th argument group is the k-th column).
* Rust `Result<T, ()>` is `Except Unit T`; a `&mut self` method is modelled
  by returning the new state next to the result.
* `std::collections::HashMap` is modelled by its contents, an association
  list keyed by `String` with insert-overwrite semantics.  The *iteration
  order* of `HashMap::values()` is unspecified (it depends on the per-map
  random hash seed), so every operation of the source that iterates the map
  (`Lighting::bake`, `Lighting::render`) is modelled as consuming an
  arbitrary permutation of the contents.
-/

noncomputable section

/-- cgmath `Vector3<f32>` (named `Vec3` here since Mathlib already declares `Vector3`) (also used for `Point3<f32>`), with `f32`
idealized as `ℝ`. -/
structure Vec3 where
  x : ℝ
  y : ℝ
  z : ℝ
deriving DecidableEq

namespace Vec3

/-- Model of `Vec3::zero()`. -/
def zero : Vec3 := ⟨0, 0, 0⟩

/-- Componentwise addition (`Add for Vec3`). -/
def add (a b : Vec3) : Vec3 := ⟨a.x + b.x, a.y + b.y, a.z + b.z⟩

/-- Componentwise subtraction (`Sub for Vec3`, also `Point3 - Point3`). -/
def sub (a b : Vec3) : Vec3 := ⟨a.x - b.x, a.y - b.y, a.z - b.z⟩

/-- Scalar multiplication (`Vec3 * f32`). -/
def smul (k : ℝ) (a : Vec3) : Vec3 := ⟨k * a.x, k * a.y, k * a.z⟩

/-- cgmath `InnerSpace::dot`. -/
def dot (a b : Vec3) : ℝ := a.x * b.x + a.y * b.y + a.z * b.z

/-- cgmath `Vec3::cross`. -/
def cross (a b : Vec3) : Vec3 :=
  ⟨a.y * b.z - a.z * b.y, a.z * b.x - a.x * b.z, a.x * b.y - a.y * b.x⟩

/-- cgmath `InnerSpace::magnitude2` (`dot(self, self)`). -/
def magnitude2 (a : Vec3) : ℝ := dot a a

/-- cgmath `InnerSpace::magnitude` (`sqrt(magnitude2)`). -/
def magnitude (a : Vec3) : ℝ := Real.sqrt (magnitude2 a)

/-- cgmath `InnerSpace::normalize` (`self * (1 / magnitude)`). -/
def normalize (a : Vec3) : Vec3 := smul (1 / magnitude a) a

/-- cgmath `InnerSpace::normalize_to` (`self * (magnitude / self.magnitude())`). -/
def normalize_to (a : Vec3) (m : ℝ) : Vec3 := smul (m / magnitude a) a

@[simp] lemma add_def (a b : Vec3) :
    add a b = ⟨a.x + b.x, a.y + b.y, a.z + b.z⟩ := rfl

@[simp] lemma sub_def (a b : Vec3) :
    sub a b = ⟨a.x - b.x, a.y - b.y, a.z - b.z⟩ := rfl

@[simp] lemma smul_def (k : ℝ) (a : Vec3) :
    smul k a = ⟨k * a.x, k * a.y, k * a.z⟩ := rfl

@[simp] lemma dot_def (a b : Vec3) :
    dot a b = a.x * b.x + a.y * b.y + a.z * b.z := rfl

@[simp] lemma cross_def (a b : Vec3) :
    cross a b =
      ⟨a.y * b.z - a.z * b.y, a.z * b.x - a.x * b.z, a.x * b.y - a.y * b.x⟩ := rfl

lemma ext3 {a b : Vec3} (hx : a.x = b.x) (hy : a.y = b.y) (hz : a.z = b.z) :
    a = b := by
  cases a
  cases b
  simp_all

lemma magnitude2_def (a : Vec3) :
    magnitude2 a = a.x * a.x + a.y * a.y + a.z * a.z := rfl

lemma magnitude_def (a : Vec3) :
    magnitude a = Real.sqrt (a.x * a.x + a.y * a.y + a.z * a.z) := rfl

lemma magnitude_nonneg (a : Vec3) : 0 ≤ magnitude a := Real.sqrt_nonneg _

lemma sumsq_nonneg (a : Vec3) : 0 ≤ a.x * a.x + a.y * a.y + a.z * a.z :=
  add_nonneg (add_nonneg (mul_self_nonneg _) (mul_self_nonneg _)) (mul_self_nonneg _)

/-- A vector with zero magnitude is the zero vector (real arithmetic). -/
lemma eq_zero_of_magnitude_eq_zero {a : Vec3} (h : magnitude a = 0) :
    a = zero := by
  have hsq : a.x * a.x + a.y * a.y + a.z * a.z = 0 :=
    (Real.sqrt_eq_zero (sumsq_nonneg a)).mp h
  have hx : a.x = 0 := by nlinarith [mul_self_nonneg a.x, mul_self_nonneg a.y, mul_self_nonneg a.z]
  have hy : a.y = 0 := by nlinarith [mul_self_nonneg a.x, mul_self_nonneg a.y, mul_self_nonneg a.z]
  have hz : a.z = 0 := by nlinarith [mul_self_nonneg a.x, mul_self_nonneg a.y, mul_self_nonneg a.z]
  cases a
  simp_all [zero]

/-- Scaling a vector scales its magnitude by the absolute scalar. -/
lemma magnitude_smul (k : ℝ) (a : Vec3) :
    magnitude (smul k a) = |k| * magnitude a := by
  have : (k * a.x) * (k * a.x) + (k * a.y) * (k * a.y) + (k * a.z) * (k * a.z)
      = k ^ 2 * (a.x * a.x + a.y * a.y + a.z * a.z) := by ring
  rw [magnitude_def, magnitude_def, smul]
  simp only [this]
  rw [Real.sqrt_mul (sq_nonneg k), Real.sqrt_sq_eq_abs]

/-- Normalizing a vector of non-zero magnitude yields a unit vector. -/
lemma magnitude_normalize {a : Vec3} (h : magnitude a ≠ 0) :
    magnitude (normalize a) = 1 := by
  have hpos : 0 < magnitude a := lt_of_le_of_ne (magnitude_nonneg a) (Ne.symm h)
  rw [normalize, magnitude_smul]
  rw [abs_of_pos (by positivity)]
  field_simp

end Vec3

/-- Degrees to radians, as cgmath `Rad::from(Deg(d))` (`d * PI / 180`). -/
def degToRad (d : ℝ) : ℝ := d * (Real.pi / 180)

/-- cgmath `Basis3::from_axis_angle(axis, angle)` applied to a vector:
`Matrix3::from_axis_angle` builds the Rodrigues matrix
`R v = (1-cos) (axis·v) axis + cos v + sin (axis × v)` for the (assumed
unit) axis; the angle is a cgmath `Deg` and is converted to radians. -/
def rotateAxisAngle (axis : Vec3) (deg : ℝ) (v : Vec3) : Vec3 :=
  let c := Real.cos (degToRad deg)
  let s := Real.sin (degToRad deg)
  Vec3.add
    (Vec3.add (Vec3.smul ((1 - c) * Vec3.dot axis v) axis)
      (Vec3.smul c v))
    (Vec3.smul s (Vec3.cross axis v))

/-- Square 4x4 real matrix (cgmath `Matrix4<f32>` idealized). -/
abbrev Mat4 := Matrix (Fin 4) (Fin 4) ℝ

/-- cgmath `Matrix4::look_at(eye, center, up)`.  Transcribed from the
column-major constructor call in cgmath (`Matrix4::new` receives the four
columns); here written by rows. -/
def lookAt (eye center up : Vec3) : Mat4 :=
  let f := (Vec3.sub center eye).normalize
  let s := (Vec3.cross f up).normalize
  let u := Vec3.cross s f
  !![s.x, s.y, s.z, -(Vec3.dot eye s);
     u.x, u.y, u.z, -(Vec3.dot eye u);
     -f.x, -f.y, -f.z, Vec3.dot eye f;
     0, 0, 0, 1]

/-- cgmath `cot` (`cos / sin`). -/
def cotReal (x : ℝ) : ℝ := Real.cos x / Real.sin x

/-- cgmath `perspective(Deg(fovy), aspect, near, far)`
(`Matrix4::from(PerspectiveFov { .. })`), written by rows. -/
def perspectiveMat (fovyDeg aspect near far : ℝ) : Mat4 :=
  let f := cotReal (degToRad fovyDeg / 2)
  !![f / aspect, 0, 0, 0;
     0, f, 0, 0;
     0, 0, (far + near) / (near - far), (2 * far * near) / (near - far);
     0, 0, -1, 0]

/-- Model of `Projection` (src/camera/projection.rs): perspective parameters plus the
cached projection matrix. -/
structure Projection where
  aspect : ℝ
  fov_y : ℝ
  z_near : ℝ
  z_far : ℝ
  projection : Mat4

namespace Projection

/-- Model of `Projection::DEFAULT_FOV_Y` (45 degrees). -/
def DEFAULT_FOV_Y : ℝ := 45

/-- Model of `Projection::DEFAULT_Z_NEAR` (`0.1f32`, idealized as `1/10`). -/
def DEFAULT_Z_NEAR : ℝ := 1 / 10

/-- Model of `Projection::DEFAULT_Z_FAR` (`100.0`). -/
def DEFAULT_Z_FAR : ℝ := 100

/-- Model of `Projection::new`: caches the perspective matrix at construction. -/
def new (aspect fov_y z_near z_far : ℝ) : Projection :=
  { aspect := aspect, fov_y := fov_y, z_near := z_near, z_far := z_far,
    projection := perspectiveMat fov_y aspect z_near z_far }

/-- Model of `Projection::with_aspect`: `new` with the default parameters. -/
def with_aspect (aspect : ℝ) : Projection :=
  new aspect DEFAULT_FOV_Y DEFAULT_Z_NEAR DEFAULT_Z_FAR

/-- Model of `Projection::as_matrix`: returns the cached matrix. -/
def as_matrix (p : Projection) : Mat4 := p.projection

end Projection

/-- Model of `View` (src/camera/view.rs): eye, target, up, and the cached view
matrix. -/
structure View where
  eye : Vec3
  target : Vec3
  up : Vec3
  view : Mat4

namespace View

/-- Model of `View::new`: normalizes `up` and caches the look-at matrix. -/
def new (eye target up : Vec3) : View :=
  let up' := up.normalize
  { eye := eye, target := target, up := up', view := lookAt eye target up' }

/-- Model of `View::get_position`. -/
def get_position (v : View) : Vec3 := v.eye

/-- Model of `View::set_position` (`&mut self`, modelled functionally): replaces the
eye and recomputes the cached look-at matrix. -/
def set_position (v : View) (position : Vec3) : View :=
  { v with eye := position, view := lookAt position v.target v.up }

/-- Model of `View::as_matrix`: returns the cached matrix. -/
def as_matrix (v : View) : Mat4 := v.view

/-- The `let forward` binding of `View::spherical_adjust`:
`(self.target - self.eye).normalize()`. -/
def forwardOf (v : View) : Vec3 := (Vec3.sub v.target v.eye).normalize

/-- The `let right` binding of `View::spherical_adjust`:
`forward.cross(self.up)` (note: not re-normalized by the source). -/
def rightOf (v : View) : Vec3 := Vec3.cross (forwardOf v) v.up

/-- The `let magnitude` binding of `View::spherical_adjust`: the new radial
magnitude `eye_vec.magnitude() - radial`, clamped from below to
`Projection::DEFAULT_Z_NEAR`.  `eye_vec` is `self.eye.to_vec()` — the eye
position relative to the ORIGIN, not to the target. -/
def adjustedMagnitude (v : View) (radial : ℝ) : ℝ :=
  if v.eye.magnitude - radial > Projection.DEFAULT_Z_NEAR
  then v.eye.magnitude - radial
  else Projection.DEFAULT_Z_NEAR

/-- The roll→pitch→yaw rotation composition applied by
`View::spherical_adjust` (yaw about `self.up`, pitch about `right`, roll
about `forward`). -/
def sphericalRotate (v : View) (yaw pitch roll : ℝ) (w : Vec3) : Vec3 :=
  rotateAxisAngle v.up yaw
    (rotateAxisAngle (rightOf v) pitch
      (rotateAxisAngle (forwardOf v) roll w))

/-- The `let eye` binding of `View::spherical_adjust`: the rotated eye
vector rescaled to the clamped magnitude. -/
def adjustedEye (v : View) (yaw pitch roll radial : ℝ) : Vec3 :=
  (sphericalRotate v yaw pitch roll v.eye).normalize_to (adjustedMagnitude v radial)

/-- The `let up` binding of `View::spherical_adjust`: the rotated,
normalized up vector with its projection onto the (pre-rotation) forward
vector subtracted (the Gram-Schmidt correction of the source). -/
def adjustedUp (v : View) (yaw pitch roll : ℝ) : Vec3 :=
  let u := (sphericalRotate v yaw pitch roll v.up).normalize
  Vec3.sub u
    (Vec3.smul (Vec3.dot (forwardOf v) u / Vec3.dot (forwardOf v) (forwardOf v))
      (forwardOf v))

/-- Model of `View::spherical_adjust(yaw, pitch, roll, radial)` — transcribed from
src/camera/view.rs lines 58–97 (the `let` bindings of the source are the
named definitions above).  Angles are cgmath `Deg<f32>` values, modelled
as real degrees. -/
def spherical_adjust (v : View) (yaw pitch roll : ℝ) (radial : ℝ) : View :=
  View.new (adjustedEye v yaw pitch roll radial) v.target (adjustedUp v yaw pitch roll)

end View

/-- Model of `Camera` (src/camera/camera.rs): pairs one `View` and one `Projection`. -/
structure Camera where
  projection : Projection
  view : View

namespace Camera

/-- Model of `Camera::new`. -/
def new (view : View) (projection : Projection) : Camera :=
  { projection := projection, view := view }

/-- Model of `Camera::get_view`. -/
def get_view (c : Camera) : View := c.view

/-- Model of `Camera::set_view` (`&mut self`, modelled functionally). -/
def set_view (c : Camera) (view : View) : Camera := { c with view := view }

end Camera

/-- Model of `CameraController` (src/camera/controller.rs): the eight boolean
press intents. -/
structure CameraController where
  is_up_pressed : Bool
  is_down_pressed : Bool
  is_left_pressed : Bool
  is_right_pressed : Bool
  is_forward_pressed : Bool
  is_backward_pressed : Bool
  is_cw_pressed : Bool
  is_ccw_pressed : Bool

namespace CameraController

/-- Model of `CameraController::new`: all intents off. -/
def new : CameraController :=
  ⟨false, false, false, false, false, false, false, false⟩

/-- Model of `SPEED` constant of `update_camera` (`0.3`). -/
def SPEED : ℝ := 3 / 10

/-- Model of `THETA` constant of `update_camera` (`Deg(6.0)`). -/
def THETA : ℝ := 6

/-- The yaw delta derived in `update_camera`. -/
def yawDelta (c : CameraController) : ℝ :=
  if c.is_right_pressed then THETA else if c.is_left_pressed then -THETA else 0

/-- The pitch delta derived in `update_camera`. -/
def pitchDelta (c : CameraController) : ℝ :=
  if c.is_up_pressed then THETA else if c.is_down_pressed then -THETA else 0

/-- The roll delta derived in `update_camera`. -/
def rollDelta (c : CameraController) : ℝ :=
  if c.is_ccw_pressed then THETA else if c.is_cw_pressed then -THETA else 0

/-- The radial delta derived in `update_camera`. -/
def radialDelta (c : CameraController) : ℝ :=
  if c.is_forward_pressed then SPEED
  else if c.is_backward_pressed then -SPEED else 0

/-- Model of `CameraController::update_camera` (src/camera/controller.rs lines
71–94).  The `&mut Camera` argument is modelled by returning the updated
camera next to the returned `bool`. -/
def update_camera (c : CameraController) (camera : Camera) : Bool × Camera :=
  let yaw := yawDelta c
  let pitch := pitchDelta c
  let roll := rollDelta c
  let radial := radialDelta c
  if yaw = 0 ∧ pitch = 0 ∧ roll = 0 ∧ radial = 0 then
    (false, camera)
  else
    (true,
      camera.set_view ((camera.get_view).spherical_adjust yaw pitch roll radial))

end CameraController

/-- The `View` values constructible through the public `View` interface:
`View::new`, `View::set_position`, and `View::spherical_adjust`. -/
inductive ReachableView : View → Prop
  | new (eye target up : Vec3) : ReachableView (View.new eye target up)
  | set_position (v : View) (p : Vec3) :
      ReachableView v → ReachableView (v.set_position p)
  | spherical_adjust (v : View) (yaw pitch roll radial : ℝ) :
      ReachableView v → ReachableView (v.spherical_adjust yaw pitch roll radial)

/-- The `Projection` values constructible through the public `Projection`
interface: `Projection::new` and `Projection::with_aspect`. -/
inductive ReachableProjection : Projection → Prop
  | new (aspect fov_y z_near z_far : ℝ) :
      ReachableProjection (Projection.new aspect fov_y z_near z_far)
  | with_aspect (aspect : ℝ) :
      ReachableProjection (Projection.with_aspect aspect)

/-- Model of `DEFAULT_EYE` (src/camera/view.rs). -/
def DEFAULT_EYE : Vec3 := ⟨0, 0, 50⟩

/-- Model of `DEFAULT_TARGET` (src/camera/view.rs). -/
def DEFAULT_TARGET : Vec3 := ⟨0, 0, 0⟩

/-- Model of `DEFAULT_UP` (src/camera/view.rs). -/
def DEFAULT_UP : Vec3 := ⟨0, 1, 0⟩

/-- Model of `wgpu::Color` (`f64` channels, idealized as `ℝ`). -/
structure Color where
  r : ℝ
  g : ℝ
  b : ℝ
  a : ℝ

/-- Model of `LightRaw` (src/light/raw.rs): the GPU record of one light.  The two
4-byte padding fields are the constant `0.0` and carry no information. -/
structure LightRaw where
  position : Vec3
  color : Vec3
  view_projection : Mat4

namespace LightRaw

/-- Model of `LightRaw::SIZE = size_of::<LightRaw>()`: `repr(C)` layout of
`3+1+3+1+16` `f32` fields, i.e. 96 bytes. -/
def SIZE : Nat := 96

/-- Model of `LightRaw::new`. -/
def new (position color : Vec3) (view_projection : Mat4) : LightRaw :=
  { position := position, color := color, view_projection := view_projection }

end LightRaw

/-- Model of `Spotlight` (src/light/spotlight.rs).  The GPU-side uniform buffer is
modelled by the `LightRaw` record it holds. -/
structure Spotlight where
  color : Vec3
  view : View
  projection : Projection
  view_projection : Mat4
  buffer : LightRaw

namespace Spotlight

/-- Model of `Spotlight::new`: computes `projection * view`, writes the raw record
into the spotlight's own uniform buffer. -/
def new (color : Vec3) (projection : Projection) (view : View) : Spotlight :=
  let view_projection := projection.as_matrix * view.as_matrix
  let light_raw := LightRaw.new (view.get_position) color view_projection
  { color := color, view := view, projection := projection,
    view_projection := view_projection, buffer := light_raw }

/-- Model of `Spotlight::get_position`. -/
def get_position (s : Spotlight) : Vec3 := s.view.get_position

end Spotlight

/-- Model of `Light` (src/light/light.rs): a boxed light source (only `Spotlight`
exists), its marker model (represented by the position of the single
instance that `add_spotlight` gives it), and the visibility flag
(initially `false`). -/
structure Light where
  source : Spotlight
  modelInstancePos : Vec3
  visible : Bool

namespace Light

/-- Model of `Light::new` (visibility starts `false`). -/
def new (source : Spotlight) (modelInstancePos : Vec3) : Light :=
  { source := source, modelInstancePos := modelInstancePos, visible := false }

/-- Model of `Light::get_buffer`: the light's own uniform buffer contents. -/
def get_buffer (l : Light) : LightRaw := l.source.buffer

end Light

/-- A GPU copy operation recorded by `Lighting::add_spotlight` into its
command encoder. -/
inductive CopyOp
  /-- Model of `copy_buffer_to_buffer(light buffer, 0, lights_buffer, dstOffset, LightRaw::SIZE)`. -/
  | copyLightRecord (record : LightRaw) (dstOffset : Nat)
  /-- copy of a staging buffer holding `value : u32` into the 4-byte count buffer. -/
  | copyCount (value : Nat)

/-- Model of `Lighting` (src/light/lighting.rs).  Only the `HashMap<String, Light>`
is modelled; the GPU handles (pipelines, bind groups, buffers, shadow
texture) carry no state the claims depend on.  `lights` records the map
*contents* keyed in first-insertion order; the iteration order of
`HashMap::values()` is NOT this order — it is unspecified, and is modelled
as an arbitrary permutation of `lights` wherever the source iterates. -/
structure Lighting where
  lights : List (String × Light)

namespace Lighting

/-- Model of `Lighting::MAX_LIGHTS`. -/
def MAX_LIGHTS : Nat := 10

/-- Model of `HashMap::insert` contents semantics on the association list: replace
the value of an existing key, otherwise append the new entry. -/
def mapInsert (k : String) (v : Light) : List (String × Light) → List (String × Light)
  | [] => [(k, v)]
  | (k', v') :: rest =>
      if k = k' then (k, v) :: rest else (k', v') :: mapInsert k v rest

/-- Model of `Lighting::new` restricted to its map state: the registry starts
empty. -/
def new : Lighting := { lights := [] }

/-- Model of `Lighting::insert` (src/light/lighting.rs lines 199–207): fails when
the registry already holds `MAX_LIGHTS - 1` entries, otherwise inserts and
returns the prior map size as the light's index.  The `&mut self` receiver
is modelled by also returning the (possibly unchanged) state. -/
def insert (s : Lighting) (key : String) (value : Light) :
    Except Unit Nat × Lighting :=
  let light_count := s.lights.length
  if light_count = MAX_LIGHTS - 1 then
    (Except.error (), s)
  else
    (Except.ok light_count, { s with lights := mapInsert key value s.lights })

/-- The `Light` value that `Lighting::add_spotlight` constructs before
inserting: the new `Spotlight` plus its marker model placed at the
spotlight's position. -/
def mkLight (color : Color) (projection : Projection) (view : View) : Light :=
  let spotlight := Spotlight.new ⟨color.r, color.g, color.b⟩ projection view
  Light.new spotlight spotlight.get_position

/-- Model of `Lighting::add_spotlight` (src/light/lighting.rs lines 121–161).
Constructs the `Spotlight` and its marker model, inserts it, and — on
success — schedules two GPU copies: the light's record at byte offset
`index * LightRaw::SIZE` of the packed array buffer, and the value
`1 + index` into the count buffer.  On failure (`?` on `insert`) nothing
is scheduled and the registry is unchanged. -/
def add_spotlight (s : Lighting) (name : String) (color : Color)
    (projection : Projection) (view : View) :
    Except Unit (Nat × List CopyOp) × Lighting :=
  let colorVec : Vec3 := ⟨color.r, color.g, color.b⟩
  let spotlight := Spotlight.new colorVec projection view
  let light := Light.new spotlight spotlight.get_position
  match insert s name light with
  | (Except.error _, s') => (Except.error (), s')
  | (Except.ok light_index, s') =>
      (Except.ok (light_index,
        [CopyOp.copyLightRecord light.get_buffer (light_index * LightRaw.SIZE),
         CopyOp.copyCount (1 + light_index)]), s')

/-- The keys of the registry map. -/
def keys (s : Lighting) : List String := s.lights.map Prod.fst

/-- Iterated `add_spotlight` over a list of names (same color, projection
and view for each call), stopping with `none` on the first failure. -/
def runAdds (s : Lighting) (names : List String) (color : Color)
    (projection : Projection) (view : View) : Option Lighting :=
  match names with
  | [] => some s
  | n :: rest =>
      match add_spotlight s n color projection view with
      | (Except.ok _, s') => runAdds s' rest color projection view
      | (Except.error _, _) => none

/-- Model of `Lighting::bake` (src/light/lighting.rs lines 163–167) pairs each
enumerated light with its enumeration index (the shadow-map array layer it
is baked into).  The enumeration consumes `HashMap::values()`, whose order
is unspecified; the caller therefore supplies the order as an arbitrary
permutation of the map contents, and this function records the
(layer index, light name) pairing it produces. -/
def bake (order : List (String × Light)) : List (Nat × String) :=
  order.enum.map fun p => (p.1, p.2.1)

end Lighting

/-- cgmath `Quaternion<f32>` (scalar part `s`, vector part `v`). -/
structure Quat where
  s : ℝ
  vx : ℝ
  vy : ℝ
  vz : ℝ

/-- Square 3x3 real matrix (cgmath `Matrix3<f32>` idealized). -/
abbrev Mat3 := Matrix (Fin 3) (Fin 3) ℝ

/-- cgmath `Matrix4::from_translation(v)`: identity with the translation in
the fourth column. -/
def fromTranslation (p : Vec3) : Mat4 :=
  !![1, 0, 0, p.x;
     0, 1, 0, p.y;
     0, 0, 1, p.z;
     0, 0, 0, 1]

/-- cgmath `Matrix4::from(quat)` (the `From<Quaternion> for Matrix4`
conversion), written by rows; cgmath passes the columns to
`Matrix4::new`. -/
def quatToMat4 (q : Quat) : Mat4 :=
  let x2 := q.vx + q.vx
  let y2 := q.vy + q.vy
  let z2 := q.vz + q.vz
  let xx2 := x2 * q.vx
  let xy2 := x2 * q.vy
  let xz2 := x2 * q.vz
  let yy2 := y2 * q.vy
  let yz2 := y2 * q.vz
  let zz2 := z2 * q.vz
  let sy2 := y2 * q.s
  let sz2 := z2 * q.s
  let sx2 := x2 * q.s
  !![1 - yy2 - zz2, xy2 - sz2, xz2 + sy2, 0;
     xy2 + sz2, 1 - xx2 - zz2, yz2 - sx2, 0;
     xz2 - sy2, yz2 + sx2, 1 - xx2 - yy2, 0;
     0, 0, 0, 1]

/-- cgmath `SquareMatrix::invert` for `Matrix4`, idealized over `ℝ`: the
true inverse when the determinant is non-zero, `None` otherwise. -/
def invert4 (m : Mat4) : Option Mat4 :=
  if m.det = 0 then none else some m⁻¹

/-- The 3x3 matrix built by `InstanceRaw::new` from the inverted model
matrix `m`: `Matrix3::new(m.x.x, m.y.x, m.z.x, m.x.y, m.y.y, m.z.y,
m.x.z, m.y.z, m.z.z)` — the transpose of the upper-left 3x3 block. -/
def transposeTruncate (m : Mat4) : Mat3 :=
  !![m 0 0, m 1 0, m 2 0;
     m 0 1, m 1 1, m 2 1;
     m 0 2, m 1 2, m 2 2]

/-- Model of `InstanceRaw` (src/model/instance.rs): the per-instance GPU record. -/
structure InstanceRaw where
  model : Mat4
  normal : Mat3

namespace InstanceRaw

/-- Model of `InstanceRaw::new`: inverts the model matrix (this `expect` panics on a
non-invertible matrix, modelled as `none`) and stores its
transposed-truncated inverse as the normal matrix. -/
def new (model : Mat4) : Option InstanceRaw :=
  match invert4 model with
  | none => none
  | some m => some { model := model, normal := transposeTruncate m }

end InstanceRaw

/-- Model of `Instance` (src/model/instance.rs): position plus rotation
quaternion. -/
structure Instance where
  position : Vec3
  rotation : Quat

namespace Instance

/-- The model matrix lowered by `Instance::to_raw`:
`from_translation(position) * Matrix4::from(rotation)`. -/
def modelMatrix (i : Instance) : Mat4 :=
  fromTranslation i.position * quatToMat4 i.rotation

/-- Model of `Instance::to_raw` (`none` models the panic inside
`InstanceRaw::new`). -/
def to_raw (i : Instance) : Option InstanceRaw :=
  InstanceRaw.new i.modelMatrix

end Instance

/-- The upper-left 3x3 block of a 4x4 matrix. -/
def truncate3 (m : Mat4) : Mat3 :=
  !![m 0 0, m 0 1, m 0 2;
     m 1 0, m 1 1, m 1 2;
     m 2 0, m 2 1, m 2 2]

/-- Modelled from the spec: the reference normal matrix — "inverse-transpose
of the upper-left 3x3" block of the model matrix. -/
def normalMatrixSpec (m : Mat4) : Mat3 := (truncate3 m)⁻¹.transpose

/-- An example camera state used by witnesses: the default view of the
source with the default projection at aspect ratio 1. -/
def exView : View := View.new DEFAULT_EYE DEFAULT_TARGET DEFAULT_UP

/-- An example projection used by witnesses. -/
def exProjection : Projection := Projection.with_aspect 1

/-- An example camera used by witnesses. -/
def exCamera : Camera := Camera.new exView exProjection

/-- An example light color (white, opaque). -/
def exColor : Color := ⟨1, 1, 1, 1⟩

/-- The registry after one successful `add_spotlight` of name `"a"` on the
empty registry. -/
def exState1 : Lighting :=
  (Lighting.add_spotlight Lighting.new "a" exColor exProjection exView).2

/-- The registry after a further successful `add_spotlight` of name
`"b"`. -/
def exState2 : Lighting :=
  (Lighting.add_spotlight exState1 "b" exColor exProjection exView).2

/-! The theorems settling the claims follow. -/

/-- Rotation by a zero angle is the identity, whatever the axis. -/
lemma rotateAxisAngle_zero (axis v : Vec3) : rotateAxisAngle axis 0 v = v := by
  cases v
  simp [rotateAxisAngle, degToRad]

/-- C5: for all `(yaw, pitch, roll, radial)` with at least one non-zero
argument, `View::spherical_adjust` returns a `View` whose target equals the
receiver's target.  (Purity of the receiver is structural: the source takes
`self` by value — a `Copy` — and only builds a new `View`, which the
functional embedding reflects; no field of the receiver is written.) -/
theorem spherical_adjust_preserves_target (v : View) (yaw pitch roll radial : ℝ)
    (_hnz : yaw ≠ 0 ∨ pitch ≠ 0 ∨ roll ≠ 0 ∨ radial ≠ 0) :
    (v.spherical_adjust yaw pitch roll radial).target = v.target := rfl

/-- Witness for C5 at the default view with `yaw = 6`. -/
theorem spherical_adjust_preserves_target_witness :
    ((6 : ℝ) ≠ 0 ∨ (0 : ℝ) ≠ 0 ∨ (0 : ℝ) ≠ 0 ∨ (0 : ℝ) ≠ 0) ∧
    (exView.spherical_adjust 6 0 0 0).target = exView.target :=
  ⟨Or.inl (by norm_num),
   spherical_adjust_preserves_target exView 6 0 0 0 (Or.inl (by norm_num))⟩

/-- C7: `CameraController::update_camera` reports `false` and leaves the
camera unchanged exactly when all four derived deltas are zero; otherwise
it replaces the camera's view by `spherical_adjust` of the deltas and
reports `true`. -/
theorem update_camera_spec (c : CameraController) (camera : Camera) :
    (c.yawDelta = 0 ∧ c.pitchDelta = 0 ∧ c.rollDelta = 0 ∧ c.radialDelta = 0 →
      c.update_camera camera = (false, camera)) ∧
    (¬(c.yawDelta = 0 ∧ c.pitchDelta = 0 ∧ c.rollDelta = 0 ∧ c.radialDelta = 0) →
      c.update_camera camera =
        (true, camera.set_view ((camera.get_view).spherical_adjust
          c.yawDelta c.pitchDelta c.rollDelta c.radialDelta))) := by
  constructor
  · intro h
    simp only [CameraController.update_camera]
    rw [if_pos h]
  · intro h
    simp only [CameraController.update_camera]
    rw [if_neg h]

/-- Witness for C7: the fresh controller (no key pressed) leaves the
example camera unchanged. -/
theorem update_camera_spec_witness :
    (CameraController.new.yawDelta = 0 ∧ CameraController.new.pitchDelta = 0 ∧
     CameraController.new.rollDelta = 0 ∧ CameraController.new.radialDelta = 0) ∧
    CameraController.new.update_camera exCamera = (false, exCamera) := by
  have hz : CameraController.new.yawDelta = 0 ∧ CameraController.new.pitchDelta = 0 ∧
      CameraController.new.rollDelta = 0 ∧ CameraController.new.radialDelta = 0 := by
    refine ⟨?_, ?_, ?_, ?_⟩ <;>
      simp [CameraController.new, CameraController.yawDelta, CameraController.pitchDelta,
        CameraController.rollDelta, CameraController.radialDelta]
  exact ⟨hz, (update_camera_spec CameraController.new exCamera).1 hz⟩

/-- C9: cached-matrix coherence.  Every `View` produced by the public
constructors/mutators carries `lookAt eye target up` of its stored fields
as its cached matrix, and every `Projection` produced by `new`/`with_aspect`
carries the perspective matrix of its stored parameters; `as_matrix` only
reads the cache, so the cache is never stale. -/
theorem cached_matrices_coherent :
    (∀ v : View, ReachableView v →
      v.as_matrix = lookAt v.eye v.target v.up) ∧
    (∀ p : Projection, ReachableProjection p →
      p.as_matrix = perspectiveMat p.fov_y p.aspect p.z_near p.z_far) := by
  constructor
  · intro v h
    induction h with
    | new eye target up => rfl
    | set_position v p hv ih => rfl
    | spherical_adjust v yaw pitch roll radial hv ih => rfl
  · intro p h
    cases h with
    | new aspect fov_y z_near z_far => rfl
    | with_aspect aspect => rfl

/-- Witness for C9 at a concrete reachable view. -/
theorem cached_matrices_coherent_witness :
    ReachableView exView ∧
    exView.as_matrix = lookAt exView.eye exView.target exView.up :=
  ⟨ReachableView.new DEFAULT_EYE DEFAULT_TARGET DEFAULT_UP,
   cached_matrices_coherent.1 exView
     (ReachableView.new DEFAULT_EYE DEFAULT_TARGET DEFAULT_UP)⟩

/-- Inserting a fresh key appends the entry. -/
lemma mapInsert_not_mem (k : String) (v : Light) :
    ∀ l : List (String × Light), k ∉ l.map Prod.fst →
      Lighting.mapInsert k v l = l ++ [(k, v)] := by
  intro l
  induction l with
  | nil => intro _; rfl
  | cons hd tl ih =>
      intro h
      rw [List.map_cons, List.mem_cons] at h
      push_neg at h
      rw [Lighting.mapInsert, if_neg h.1, ih h.2]
      rfl

/-- Inserting an existing key preserves the number of entries. -/
lemma mapInsert_mem_length (k : String) (v : Light) :
    ∀ l : List (String × Light), k ∈ l.map Prod.fst →
      (Lighting.mapInsert k v l).length = l.length := by
  intro l
  induction l with
  | nil => intro h; simp at h
  | cons hd tl ih =>
      intro h
      rw [Lighting.mapInsert]
      by_cases hk : k = hd.1
      · rw [if_pos hk]
        simp
      · rw [List.map_cons, List.mem_cons] at h
        rcases h with h | h
        · exact absurd h hk
        · rw [if_neg hk]
          simp [ih h]

/-- A successful `insert` on a registry below the capacity check. -/
lemma insert_ok {s : Lighting} (hlen : s.lights.length ≠ Lighting.MAX_LIGHTS - 1)
    (key : String) (value : Light) :
    s.insert key value =
      (Except.ok s.lights.length, { s with lights := Lighting.mapInsert key value s.lights }) := by
  rw [Lighting.insert, if_neg hlen]

/-- A failing `insert` at the capacity check leaves the registry unchanged. -/
lemma insert_err {s : Lighting} (hlen : s.lights.length = Lighting.MAX_LIGHTS - 1)
    (key : String) (value : Light) :
    s.insert key value = (Except.error (), s) := by
  rw [Lighting.insert, if_pos hlen]

/-- Model of `add_spotlight` on a registry below the capacity check: the returned
index is the prior size, and the new contents are `mapInsert` of the new
light. -/
lemma add_spotlight_ok {s : Lighting} (hlen : s.lights.length ≠ Lighting.MAX_LIGHTS - 1)
    (name : String) (color : Color) (projection : Projection) (view : View) :
    s.add_spotlight name color projection view =
      (Except.ok (s.lights.length,
        [CopyOp.copyLightRecord (Lighting.mkLight color projection view).get_buffer
           (s.lights.length * LightRaw.SIZE),
         CopyOp.copyCount (1 + s.lights.length)]),
       { s with lights := Lighting.mapInsert name (Lighting.mkLight color projection view) s.lights }) := by
  rw [Lighting.add_spotlight, insert_ok hlen]
  rfl

/-- Model of `add_spotlight` at the capacity check fails and changes nothing. -/
lemma add_spotlight_err {s : Lighting} (hlen : s.lights.length = Lighting.MAX_LIGHTS - 1)
    (name : String) (color : Color) (projection : Projection) (view : View) :
    s.add_spotlight name color projection view = (Except.error (), s) := by
  rw [Lighting.add_spotlight, insert_err hlen]

/-- Adding a list of fresh, pairwise-distinct names to a registry with
enough head-room succeeds and extends the key list in order. -/
lemma runAdds_fresh (color : Color) (projection : Projection) (view : View) :
    ∀ (names : List String) (s : Lighting), names.Nodup →
      (∀ n ∈ names, n ∉ s.keys) →
      s.lights.length + names.length ≤ Lighting.MAX_LIGHTS - 1 →
      ∃ s' : Lighting, Lighting.runAdds s names color projection view = some s' ∧
        s'.keys = s.keys ++ names := by
  intro names
  induction names with
  | nil =>
      intro s _ _ _
      exact ⟨s, rfl, by simp⟩
  | cons n rest ih =>
      intro s hnd hfresh hlen
      have hne : s.lights.length ≠ Lighting.MAX_LIGHTS - 1 := by
        simp only [List.length_cons, Lighting.MAX_LIGHTS] at hlen ⊢
        omega
      have hstep := add_spotlight_ok hne n color projection view
      have hmem : n ∉ s.lights.map Prod.fst := hfresh n (List.mem_cons_self n rest)
      rw [Lighting.runAdds, hstep]
      set light := Light.new (Spotlight.new ⟨color.r, color.g, color.b⟩ projection view)
        (Spotlight.new ⟨color.r, color.g, color.b⟩ projection view).get_position with hlight
      have hins : Lighting.mapInsert n light s.lights = s.lights ++ [(n, light)] :=
        mapInsert_not_mem n light s.lights hmem
      set s1 : Lighting := { lights := Lighting.mapInsert n light s.lights } with hs1
      have hkeys1 : s1.keys = s.keys ++ [n] := by
        simp [hs1, Lighting.keys, hins]
      have hlen1 : s1.lights.length = s.lights.length + 1 := by
        have := congrArg List.length hkeys1
        simpa [Lighting.keys] using this
      have hfresh1 : ∀ m ∈ rest, m ∉ s1.keys := by
        intro m hm
        rw [hkeys1]
        intro hmem1
        rcases List.mem_append.mp hmem1 with h | h
        · exact hfresh m (List.mem_cons_of_mem n hm) h
        · rcases List.mem_singleton.mp h with rfl
          exact (List.nodup_cons.mp hnd).1 hm
      have hlen' : s1.lights.length + rest.length ≤ Lighting.MAX_LIGHTS - 1 := by
        rw [hlen1]
        simp only [List.length_cons] at hlen
        omega
      obtain ⟨s', hrun, hk⟩ := ih s1 (List.nodup_cons.mp hnd).2 hfresh1 hlen'
      refine ⟨s', hrun, ?_⟩
      rw [hk, hkeys1, List.append_assoc]
      rfl

/-- C3: from the empty registry, `add_spotlight` with nine pairwise
distinct names succeeds (nine times = `MAX_LIGHTS - 1`), reaching size 9;
from that state any further `add_spotlight` (the tenth call) returns the
capacity error `Err(())`, leaves the registry unchanged, and — since copy
operations are only produced on the `Ok` path — schedules no GPU copy. -/
theorem add_spotlight_capacity (names : List String) (color : Color)
    (projection : Projection) (view : View)
    (h9 : names.length = Lighting.MAX_LIGHTS - 1) (hnd : names.Nodup) :
    ∃ s9 : Lighting,
      Lighting.runAdds Lighting.new names color projection view = some s9 ∧
      s9.lights.length = Lighting.MAX_LIGHTS - 1 ∧
      ∀ (name : String) (c : Color) (p : Projection) (v : View),
        s9.add_spotlight name c p v = (Except.error (), s9) := by
  obtain ⟨s9, hrun, hkeys⟩ :=
    runAdds_fresh color projection view names Lighting.new hnd
      (by intro n _; simp [Lighting.keys, Lighting.new])
      (by simp [Lighting.new, h9])
  have hlen : s9.lights.length = Lighting.MAX_LIGHTS - 1 := by
    have := congrArg List.length hkeys
    simp only [Lighting.keys, List.length_map, List.length_append] at this
    simpa [Lighting.new, h9] using this
  exact ⟨s9, hrun, hlen, fun name c p v => add_spotlight_err hlen name c p v⟩

/-- Witness for C3: nine concrete distinct names. -/
theorem add_spotlight_capacity_witness :
    ((["l0", "l1", "l2", "l3", "l4", "l5", "l6", "l7", "l8"] : List String).length
        = Lighting.MAX_LIGHTS - 1 ∧
     (["l0", "l1", "l2", "l3", "l4", "l5", "l6", "l7", "l8"] : List String).Nodup) ∧
    (∃ s9 : Lighting,
      Lighting.runAdds Lighting.new ["l0", "l1", "l2", "l3", "l4", "l5", "l6", "l7", "l8"]
          exColor exProjection exView = some s9 ∧
      s9.lights.length = Lighting.MAX_LIGHTS - 1 ∧
      ∀ (name : String) (c : Color) (p : Projection) (v : View),
        s9.add_spotlight name c p v = (Except.error (), s9)) :=
  ⟨⟨by decide, by decide⟩,
   add_spotlight_capacity _ exColor exProjection exView (by decide) (by decide)⟩

lemma magnitude_axis_y (b : ℝ) : Vec3.magnitude ⟨0, b, 0⟩ = |b| := by
  rw [Vec3.magnitude_def]
  rw [show (0 : ℝ) * 0 + b * b + 0 * 0 = b ^ 2 by ring, Real.sqrt_sq_eq_abs]

lemma magnitude_axis_z (c : ℝ) : Vec3.magnitude ⟨0, 0, c⟩ = |c| := by
  rw [Vec3.magnitude_def]
  rw [show (0 : ℝ) * 0 + 0 * 0 + c * c = c ^ 2 by ring, Real.sqrt_sq_eq_abs]

/-- C2: `spherical_adjust` clamps the magnitude of `self.eye.to_vec()` —
the eye's distance from the ORIGIN — not the distance from the target.
At eye `(0,0,1)`, target `(0,0,3/20)` and `radial = 10` the clamp produces
the eye `(0,0,1/10)`: its distance from the origin is exactly `z_near`,
but its distance from the target is `1/20 < z_near`, refuting the claim
(and the function's own doc, which calls `radial` a change of "radial
distance from the target"). -/
theorem spherical_adjust_clamp_counterexample :
    (Vec3.sub (((View.new ⟨0, 0, 1⟩ ⟨0, 0, 3/20⟩ ⟨0, 1, 0⟩).spherical_adjust 0 0 0 10).eye)
        (((View.new ⟨0, 0, 1⟩ ⟨0, 0, 3/20⟩ ⟨0, 1, 0⟩).spherical_adjust 0 0 0 10).target)).magnitude
      < Projection.DEFAULT_Z_NEAR ∧
    (((View.new ⟨0, 0, 1⟩ ⟨0, 0, 3/20⟩ ⟨0, 1, 0⟩).spherical_adjust 0 0 0 10).eye).magnitude
      = Projection.DEFAULT_Z_NEAR := by
  set v := View.new ⟨0, 0, 1⟩ ⟨0, 0, 3/20⟩ ⟨0, 1, 0⟩ with hv
  have heyev : v.eye = ⟨0, 0, 1⟩ := rfl
  have hm1 : Vec3.magnitude ⟨0, 0, 1⟩ = 1 := by
    rw [magnitude_axis_z]; norm_num
  have hmag : v.adjustedMagnitude 10 = Projection.DEFAULT_Z_NEAR := by
    rw [View.adjustedMagnitude, heyev, hm1, if_neg]
    norm_num [Projection.DEFAULT_Z_NEAR]
  have heye : (v.spherical_adjust 0 0 0 10).eye = ⟨0, 0, 1/10⟩ := by
    show v.adjustedEye 0 0 0 10 = _
    rw [View.adjustedEye, View.sphericalRotate, rotateAxisAngle_zero,
      rotateAxisAngle_zero, rotateAxisAngle_zero, hmag, heyev,
      Vec3.normalize_to, hm1]
    simp [Projection.DEFAULT_Z_NEAR]
  have htgt : (v.spherical_adjust 0 0 0 10).target = ⟨0, 0, 3/20⟩ := rfl
  constructor
  · rw [heye, htgt]
    have hsub : Vec3.sub ⟨0, 0, 1/10⟩ ⟨0, 0, 3/20⟩ = ⟨0, 0, -(1/20)⟩ := by
      simp
      norm_num
    rw [hsub, magnitude_axis_z, abs_neg, abs_of_pos (by norm_num : (0:ℝ) < 1/20)]
    norm_num [Projection.DEFAULT_Z_NEAR]
  · rw [heye, magnitude_axis_z, abs_of_pos (by norm_num : (0:ℝ) < 1/10)]
    norm_num [Projection.DEFAULT_Z_NEAR]

lemma dot_smul_left (k : ℝ) (a b : Vec3) :
    Vec3.dot (Vec3.smul k a) b = k * Vec3.dot a b := by
  simp
  ring

lemma dot_ff_zero_imp_zero {f : Vec3} (hf : Vec3.dot f f = 0) : f = Vec3.zero := by
  apply Vec3.eq_zero_of_magnitude_eq_zero
  rw [Vec3.magnitude, show Vec3.magnitude2 f = Vec3.dot f f from rfl, hf, Real.sqrt_zero]

/-- The Gram-Schmidt correction of `spherical_adjust` makes the pre-final
up vector exactly orthogonal (in real arithmetic) to the pre-rotation
forward vector. -/
lemma adjustedUp_dot_forward (v : View) (yaw pitch roll : ℝ) :
    Vec3.dot (View.adjustedUp v yaw pitch roll) (View.forwardOf v) = 0 := by
  rw [View.adjustedUp]
  set f := View.forwardOf v with hf
  set u := (View.sphericalRotate v yaw pitch roll v.up).normalize with hu
  show Vec3.dot (Vec3.sub u (Vec3.smul (Vec3.dot f u / Vec3.dot f f) f)) f = 0
  rcases eq_or_ne (Vec3.dot f f) 0 with hff | hff
  · rw [dot_ff_zero_imp_zero hff]
    simp [Vec3.zero]
  · simp only [Vec3.sub_def, Vec3.smul_def, Vec3.dot_def] at hff ⊢
    field_simp
    ring

/-- C6 (amended): the up vector stored by `spherical_adjust` is exactly
orthogonal — in the real-arithmetic idealization — to the PRE-rotation
forward vector of the receiver (the vector the source's Gram-Schmidt step
corrects against), and it is unit-length whenever it is non-zero.
Orthogonality to the POST-rotation forward fails in general (see the
counterexample). -/
theorem spherical_adjust_up_orthogonal (v : View) (yaw pitch roll radial : ℝ) :
    Vec3.dot ((v.spherical_adjust yaw pitch roll radial).up) (View.forwardOf v) = 0 ∧
    ((v.spherical_adjust yaw pitch roll radial).up ≠ Vec3.zero →
      ((v.spherical_adjust yaw pitch roll radial).up).magnitude = 1) := by
  have hup : (v.spherical_adjust yaw pitch roll radial).up
      = (View.adjustedUp v yaw pitch roll).normalize := rfl
  constructor
  · rw [hup, Vec3.normalize, dot_smul_left, adjustedUp_dot_forward, mul_zero]
  · intro hne
    rw [hup]
    apply Vec3.magnitude_normalize
    intro hm
    apply hne
    rw [hup, Vec3.eq_zero_of_magnitude_eq_zero hm]
    simp [Vec3.normalize, Vec3.zero]

/-- The up vector of the default view evaluates to `(0,1,0)`. -/
lemma exView_up : exView.up = ⟨0, 1, 0⟩ := by
  show Vec3.normalize DEFAULT_UP = _
  rw [Vec3.normalize, DEFAULT_UP, magnitude_axis_y, abs_of_pos (by norm_num : (0:ℝ) < 1)]
  simp

/-- The pre-rotation forward vector of the default view is `(0,0,-1)`. -/
lemma exView_forward : View.forwardOf exView = ⟨0, 0, -1⟩ := by
  rw [View.forwardOf]
  have hsub : Vec3.sub exView.target exView.eye = ⟨0, 0, -50⟩ := by
    show Vec3.sub DEFAULT_TARGET DEFAULT_EYE = _
    rw [DEFAULT_TARGET, DEFAULT_EYE]
    simp
  rw [hsub, Vec3.normalize, magnitude_axis_z, abs_neg,
    abs_of_pos (by norm_num : (0:ℝ) < 50)]
  simp

/-- Witness for C6's amended theorem at the default view with all-zero
deltas: the resulting up vector is `(0,1,0)`, non-zero, unit and orthogonal
to the forward vector. -/
theorem spherical_adjust_up_orthogonal_witness :
    ((exView.spherical_adjust 0 0 0 0).up ≠ Vec3.zero) ∧
    Vec3.dot ((exView.spherical_adjust 0 0 0 0).up) (View.forwardOf exView) = 0 ∧
    ((exView.spherical_adjust 0 0 0 0).up).magnitude = 1 := by
  have hadj : View.adjustedUp exView 0 0 0 = ⟨0, 1, 0⟩ := by
    rw [View.adjustedUp, View.sphericalRotate, rotateAxisAngle_zero,
      rotateAxisAngle_zero, rotateAxisAngle_zero, exView_forward, exView_up]
    have hn : Vec3.normalize ⟨0, 1, 0⟩ = ⟨0, 1, 0⟩ := by
      rw [Vec3.normalize, magnitude_axis_y, abs_of_pos (by norm_num : (0:ℝ) < 1)]
      simp
    rw [hn]
    simp
  have hup : (exView.spherical_adjust 0 0 0 0).up = ⟨0, 1, 0⟩ := by
    show (View.adjustedUp exView 0 0 0).normalize = _
    rw [hadj, Vec3.normalize, magnitude_axis_y, abs_of_pos (by norm_num : (0:ℝ) < 1)]
    simp
  have hne : (exView.spherical_adjust 0 0 0 0).up ≠ Vec3.zero := by
    rw [hup]
    intro hcontra
    have := congrArg Vec3.y hcontra
    simp [Vec3.zero] at this
  exact ⟨hne, (spherical_adjust_up_orthogonal exView 0 0 0 0).1,
    (spherical_adjust_up_orthogonal exView 0 0 0 0).2 hne⟩

/-- Rotation about the x-axis, componentwise. -/
lemma rotate_x_axis (d : ℝ) (w : Vec3) :
    rotateAxisAngle ⟨1, 0, 0⟩ d w =
      ⟨w.x, Real.cos (degToRad d) * w.y - Real.sin (degToRad d) * w.z,
            Real.sin (degToRad d) * w.y + Real.cos (degToRad d) * w.z⟩ := by
  simp [rotateAxisAngle]
  refine ⟨by ring, by ring, by ring⟩

lemma degToRad_45 : degToRad 45 = Real.pi / 4 := by
  rw [degToRad]
  ring

lemma sqrt_two_mul_self : Real.sqrt 2 * Real.sqrt 2 = 2 :=
  Real.mul_self_sqrt (by norm_num)

lemma one_le_sqrt_two : 1 ≤ Real.sqrt 2 := by
  nlinarith [sqrt_two_mul_self, Real.sqrt_nonneg 2]

/-- The right vector of the default view is `(1,0,0)`. -/
lemma exView_right : View.rightOf exView = ⟨1, 0, 0⟩ := by
  rw [View.rightOf, exView_forward, exView_up]
  simp

/-- The roll→pitch→yaw rotation of the default view with only `pitch = 45`
reduces to the x-axis rotation by 45 degrees. -/
lemma exView_sphericalRotate_pitch (w : Vec3) :
    View.sphericalRotate exView 0 45 0 w = rotateAxisAngle ⟨1, 0, 0⟩ 45 w := by
  rw [View.sphericalRotate, rotateAxisAngle_zero, exView_right, rotateAxisAngle_zero]

/-- C6 counterexample: at the default view with `pitch = 45` degrees, the
returned up vector is `(0,1,0)` (unit), but the POST-rotation forward
vector — the direction from the new eye to the target — is
`(0, √2/2, -√2/2)`, and their dot product is `√2/2 ≈ 0.707`, far above the
claimed `1e-4` tolerance: the source corrects orthogonality against the
PRE-rotation forward vector, not the post-rotation one. -/
theorem spherical_adjust_post_forward_counterexample :
    ¬(((exView.spherical_adjust 0 45 0 0).up).magnitude = 1 ∧
      |Vec3.dot ((Vec3.sub (exView.spherical_adjust 0 45 0 0).target
            (exView.spherical_adjust 0 45 0 0).eye).normalize)
          ((exView.spherical_adjust 0 45 0 0).up)| < 1 / 10000) := by
  have hcos : Real.cos (degToRad 45) = Real.sqrt 2 / 2 := by
    rw [degToRad_45, Real.cos_pi_div_four]
  have hsin : Real.sin (degToRad 45) = Real.sqrt 2 / 2 := by
    rw [degToRad_45, Real.sin_pi_div_four]
  have hs2 : Real.sqrt 2 * Real.sqrt 2 = 2 := sqrt_two_mul_self
  have hs2pos : 0 < Real.sqrt 2 := lt_of_lt_of_le one_pos one_le_sqrt_two
  have hhalfpos : (0:ℝ) < Real.sqrt 2 / 2 := by positivity
  have heyeval : exView.eye = ⟨0, 0, 50⟩ := rfl
  have hrot : ∀ w : Vec3, View.sphericalRotate exView 0 45 0 w
      = ⟨w.x, Real.sqrt 2 / 2 * w.y - Real.sqrt 2 / 2 * w.z,
          Real.sqrt 2 / 2 * w.y + Real.sqrt 2 / 2 * w.z⟩ := by
    intro w
    rw [exView_sphericalRotate_pitch, rotate_x_axis, hcos, hsin]
  -- the rotated and rescaled eye
  have hmadj : View.adjustedMagnitude exView 0 = 50 := by
    rw [View.adjustedMagnitude, heyeval, magnitude_axis_z,
      abs_of_pos (by norm_num : (0:ℝ) < 50), if_pos]
    · norm_num
    · norm_num [Projection.DEFAULT_Z_NEAR]
  have hroteye : View.sphericalRotate exView 0 45 0 exView.eye
      = ⟨0, -(25 * Real.sqrt 2), 25 * Real.sqrt 2⟩ := by
    rw [heyeval, hrot]
    apply Vec3.ext3 <;> simp <;> ring
  have heyemag : Vec3.magnitude ⟨0, -(25 * Real.sqrt 2), 25 * Real.sqrt 2⟩ = 50 := by
    rw [Vec3.magnitude_def,
      show (0:ℝ) * 0 + -(25 * Real.sqrt 2) * -(25 * Real.sqrt 2)
          + 25 * Real.sqrt 2 * (25 * Real.sqrt 2)
        = 1250 * (Real.sqrt 2 * Real.sqrt 2) by ring,
      hs2, show (1250:ℝ) * 2 = 50 ^ 2 by norm_num,
      Real.sqrt_sq (by norm_num : (0:ℝ) ≤ 50)]
  have heye : (exView.spherical_adjust 0 45 0 0).eye
      = ⟨0, -(25 * Real.sqrt 2), 25 * Real.sqrt 2⟩ := by
    show View.adjustedEye exView 0 45 0 0 = _
    rw [View.adjustedEye, hmadj, hroteye, Vec3.normalize_to, heyemag]
    apply Vec3.ext3 <;> norm_num
  -- the resulting up vector
  have hrotup : View.sphericalRotate exView 0 45 0 exView.up
      = ⟨0, Real.sqrt 2 / 2, Real.sqrt 2 / 2⟩ := by
    rw [exView_up, hrot]
    apply Vec3.ext3 <;> simp
  have hupmagyz : Vec3.magnitude ⟨0, Real.sqrt 2 / 2, Real.sqrt 2 / 2⟩ = 1 := by
    rw [Vec3.magnitude_def,
      show (0:ℝ) * 0 + Real.sqrt 2 / 2 * (Real.sqrt 2 / 2)
          + Real.sqrt 2 / 2 * (Real.sqrt 2 / 2)
        = (Real.sqrt 2 * Real.sqrt 2) / 2 by ring,
      hs2]
    norm_num [Real.sqrt_one]
  have hnormu : Vec3.normalize ⟨0, Real.sqrt 2 / 2, Real.sqrt 2 / 2⟩
      = ⟨0, Real.sqrt 2 / 2, Real.sqrt 2 / 2⟩ := by
    rw [Vec3.normalize, hupmagyz]
    apply Vec3.ext3 <;> norm_num
  have hadjup : View.adjustedUp exView 0 45 0 = ⟨0, Real.sqrt 2 / 2, 0⟩ := by
    rw [View.adjustedUp, hrotup, hnormu, exView_forward]
    apply Vec3.ext3 <;> simp
  have hup : (exView.spherical_adjust 0 45 0 0).up = ⟨0, 1, 0⟩ := by
    show (View.adjustedUp exView 0 45 0).normalize = _
    rw [hadjup, Vec3.normalize, magnitude_axis_y, abs_of_pos hhalfpos]
    apply Vec3.ext3
    · simp
    · show 1 / (Real.sqrt 2 / 2) * (Real.sqrt 2 / 2) = 1
      field_simp
    · simp
  -- the post-rotation forward vector
  have htgt : (exView.spherical_adjust 0 45 0 0).target = ⟨0, 0, 0⟩ := rfl
  have hsub2 : Vec3.sub ⟨0, 0, 0⟩ ⟨0, -(25 * Real.sqrt 2), 25 * Real.sqrt 2⟩
      = ⟨0, 25 * Real.sqrt 2, -(25 * Real.sqrt 2)⟩ := by
    apply Vec3.ext3 <;> simp
  have hm2 : Vec3.magnitude ⟨0, 25 * Real.sqrt 2, -(25 * Real.sqrt 2)⟩ = 50 := by
    rw [Vec3.magnitude_def,
      show (0:ℝ) * 0 + 25 * Real.sqrt 2 * (25 * Real.sqrt 2)
          + -(25 * Real.sqrt 2) * -(25 * Real.sqrt 2)
        = 1250 * (Real.sqrt 2 * Real.sqrt 2) by ring,
      hs2, show (1250:ℝ) * 2 = 50 ^ 2 by norm_num,
      Real.sqrt_sq (by norm_num : (0:ℝ) ≤ 50)]
  have hpost : (Vec3.sub (exView.spherical_adjust 0 45 0 0).target
      (exView.spherical_adjust 0 45 0 0).eye).normalize
      = ⟨0, Real.sqrt 2 / 2, -(Real.sqrt 2 / 2)⟩ := by
    rw [htgt, heye, hsub2, Vec3.normalize, hm2]
    apply Vec3.ext3 <;> simp <;> ring
  -- conclude
  rintro ⟨_, hlt⟩
  rw [hpost, hup] at hlt
  have hdot : Vec3.dot ⟨0, Real.sqrt 2 / 2, -(Real.sqrt 2 / 2)⟩ ⟨0, 1, 0⟩
      = Real.sqrt 2 / 2 := by
    rw [Vec3.dot_def]
    ring
  rw [hdot, abs_of_pos hhalfpos] at hlt
  nlinarith [one_le_sqrt_two]

/-- C4 (amended): every successful `add_spotlight` returns the prior map
size as the index, schedules the light's record at byte offset
`index * LightRaw::SIZE` and the value `1 + index` into the count buffer;
`1 + index` equals the post-insertion registry size when the name is new,
while for an already-present name the registry size stays `index`, so the
scheduled count overstates it by one. -/
theorem add_spotlight_schedules (s : Lighting) (name : String) (color : Color)
    (projection : Projection) (view : View) (idx : Nat) (ops : List CopyOp)
    (s' : Lighting)
    (h : s.add_spotlight name color projection view = (Except.ok (idx, ops), s')) :
    idx = s.lights.length ∧
    (∃ record : LightRaw,
      ops = [CopyOp.copyLightRecord record (idx * LightRaw.SIZE),
             CopyOp.copyCount (1 + idx)]) ∧
    (name ∉ s.keys → s'.lights.length = idx + 1) ∧
    (name ∈ s.keys → s'.lights.length = idx) := by
  by_cases hlen : s.lights.length = Lighting.MAX_LIGHTS - 1
  · rw [add_spotlight_err hlen] at h
    exact absurd (congrArg Prod.fst h) (by simp)
  · rw [add_spotlight_ok hlen] at h
    have hres := congrArg Prod.fst h
    have hstate := congrArg Prod.snd h
    simp only [Except.ok.injEq, Prod.mk.injEq] at hres hstate
    obtain ⟨hidx, hops⟩ := hres
    subst hidx
    refine ⟨rfl, ⟨_, hops.symm⟩, ?_, ?_⟩
    · intro hfresh
      rw [← hstate]
      simp [mapInsert_not_mem name _ s.lights hfresh]
    · intro hmem
      rw [← hstate]
      exact mapInsert_mem_length name _ s.lights hmem

/-- Witness for C4's amended theorem: the first add on the empty registry. -/
theorem add_spotlight_schedules_witness :
    (Lighting.add_spotlight Lighting.new "a" exColor exProjection exView
      = (Except.ok (0,
          [CopyOp.copyLightRecord (Lighting.mkLight exColor exProjection exView).get_buffer
            (0 * LightRaw.SIZE),
           CopyOp.copyCount (1 + 0)]), exState1)) ∧
    (0 = Lighting.new.lights.length ∧
     (∃ record : LightRaw,
       [CopyOp.copyLightRecord (Lighting.mkLight exColor exProjection exView).get_buffer
          (0 * LightRaw.SIZE), CopyOp.copyCount (1 + 0)]
         = [CopyOp.copyLightRecord record (0 * LightRaw.SIZE),
            CopyOp.copyCount (1 + 0)]) ∧
     ("a" ∉ Lighting.new.keys → exState1.lights.length = 0 + 1) ∧
     ("a" ∈ Lighting.new.keys → exState1.lights.length = 0)) :=
  ⟨rfl, add_spotlight_schedules Lighting.new "a" exColor exProjection exView 0 _ exState1 rfl⟩

/-- C4 counterexample to the claim as stated: re-adding the existing name
`"a"` succeeds with index 1 and schedules the count value `1 + 1 = 2` into
the count buffer, but the registry holds only 1 light after the
(overwriting) insertion — the scheduled count differs from the number of
lights after insertion. -/
theorem add_spotlight_count_counterexample :
    (Lighting.add_spotlight exState1 "a" exColor exProjection exView).1
        = Except.ok (1,
            [CopyOp.copyLightRecord (Lighting.mkLight exColor exProjection exView).get_buffer
               (1 * LightRaw.SIZE),
             CopyOp.copyCount (1 + 1)]) ∧
    ((Lighting.add_spotlight exState1 "a" exColor exProjection exView).2).lights.length = 1 ∧
    1 + 1 ≠ 1 :=
  ⟨rfl, rfl, by decide⟩

/-- C1: the registry is a `std::collections::HashMap`, whose value
iteration order is unspecified (seeded per map), not insertion order.
After inserting `"a"` (assigned packed-buffer index 0) and `"b"` (assigned
index 1), the reversed contents are a legal enumeration order, and under it
`Lighting::bake` pairs shadow-map layer 0 with light `"b"` — whose
array-buffer slot is 1 — so the enumeration position does not equal the
assigned buffer index and enumeration is not in insertion order. -/
theorem lighting_enumeration_order_bug :
    (∃ ops, (Lighting.add_spotlight Lighting.new "a" exColor exProjection exView).1
        = Except.ok (0, ops)) ∧
    (∃ ops, (Lighting.add_spotlight exState1 "b" exColor exProjection exView).1
        = Except.ok (1, ops)) ∧
    exState2.lights.reverse.Perm exState2.lights ∧
    Lighting.bake exState2.lights.reverse = [(0, "b"), (1, "a")] :=
  ⟨⟨_, rfl⟩, ⟨_, rfl⟩, List.reverse_perm _, rfl⟩

/-- The model matrix of every instance is affine: its bottom row is
`(0,0,0,1)` (both factor matrices have that bottom row). -/
lemma modelMatrix_row3 (i : Instance) :
    i.modelMatrix 3 0 = 0 ∧ i.modelMatrix 3 1 = 0 ∧ i.modelMatrix 3 2 = 0 ∧
      i.modelMatrix 3 3 = 1 := by
  refine ⟨?_, ?_, ?_, ?_⟩ <;>
    simp [Instance.modelMatrix, fromTranslation, quatToMat4, Matrix.mul_apply,
      Fin.sum_univ_four]

/-- For an invertible matrix whose bottom row is `(0,0,0,1)`, the inverse
of the upper-left 3x3 block is the upper-left 3x3 block of the inverse. -/
lemma truncate3_inv_of_affine (M : Mat4)
    (h30 : M 3 0 = 0) (h31 : M 3 1 = 0) (h32 : M 3 2 = 0) (h33 : M 3 3 = 1)
    (hdet : M.det ≠ 0) :
    (truncate3 M)⁻¹ = truncate3 M⁻¹ := by
  have hU : IsUnit M.det := isUnit_iff_ne_zero.mpr hdet
  have hMr : M * M⁻¹ = 1 := Matrix.mul_nonsing_inv M hU
  have hrow3 : ∀ j : Fin 4, M⁻¹ 3 j = (1 : Mat4) 3 j := by
    intro j
    have h := congrFun (congrFun hMr 3) j
    rw [Matrix.mul_apply, Fin.sum_univ_four, h30, h31, h32, h33] at h
    simpa using h
  have hb0 : M⁻¹ 3 0 = 0 := by
    rw [hrow3 0, Matrix.one_apply_ne (by decide : (3 : Fin 4) ≠ 0)]
  have hb1 : M⁻¹ 3 1 = 0 := by
    rw [hrow3 1, Matrix.one_apply_ne (by decide : (3 : Fin 4) ≠ 1)]
  have hb2 : M⁻¹ 3 2 = 0 := by
    rw [hrow3 2, Matrix.one_apply_ne (by decide : (3 : Fin 4) ≠ 2)]
  have e00 := congrFun (congrFun hMr 0) 0
  have e01 := congrFun (congrFun hMr 0) 1
  have e02 := congrFun (congrFun hMr 0) 2
  have e10 := congrFun (congrFun hMr 1) 0
  have e11 := congrFun (congrFun hMr 1) 1
  have e12 := congrFun (congrFun hMr 1) 2
  have e20 := congrFun (congrFun hMr 2) 0
  have e21 := congrFun (congrFun hMr 2) 1
  have e22 := congrFun (congrFun hMr 2) 2
  simp only [Matrix.mul_apply, Fin.sum_univ_four, Matrix.one_apply_eq,
    Matrix.one_apply_ne, ne_eq, Fin.reduceEq, not_false_eq_true]
    at e00 e01 e02 e10 e11 e12 e20 e21 e22
  have hAB : truncate3 M * truncate3 M⁻¹ = 1 := by
    ext a b
    fin_cases a <;> fin_cases b <;>
      simp [truncate3, Matrix.mul_apply, Fin.sum_univ_three, Matrix.one_apply]
    · linear_combination e00 - M 0 3 * hb0
    · linear_combination e01 - M 0 3 * hb1
    · linear_combination e02 - M 0 3 * hb2
    · linear_combination e10 - M 1 3 * hb0
    · linear_combination e11 - M 1 3 * hb1
    · linear_combination e12 - M 1 3 * hb2
    · linear_combination e20 - M 2 3 * hb0
    · linear_combination e21 - M 2 3 * hb1
    · linear_combination e22 - M 2 3 * hb2
  exact Matrix.inv_eq_right_inv hAB

/-- C8: for every instance whose model matrix is invertible, the normal
matrix computed by the source's route (invert the full 4x4 matrix, then
transpose/truncate its upper-left 3x3 block) equals the reference
definition from the spec — the inverse-transpose of the upper-left 3x3
block of the model matrix — and `to_raw` succeeds. -/
theorem to_raw_normal_matrix (i : Instance) (hdet : i.modelMatrix.det ≠ 0) :
    i.to_raw = some { model := i.modelMatrix,
                      normal := normalMatrixSpec i.modelMatrix } := by
  obtain ⟨h30, h31, h32, h33⟩ := modelMatrix_row3 i
  have hinv : (truncate3 i.modelMatrix)⁻¹ = truncate3 (i.modelMatrix)⁻¹ :=
    truncate3_inv_of_affine i.modelMatrix h30 h31 h32 h33 hdet
  have hnormal : transposeTruncate (i.modelMatrix)⁻¹ = normalMatrixSpec i.modelMatrix := by
    rw [normalMatrixSpec, hinv]
    ext a b
    fin_cases a <;> fin_cases b <;>
      simp [transposeTruncate, truncate3, Matrix.transpose_apply]
  have hstep : i.to_raw = some (InstanceRaw.mk i.modelMatrix
      (transposeTruncate (i.modelMatrix)⁻¹)) := by
    unfold Instance.to_raw InstanceRaw.new invert4
    rw [if_neg hdet]
  rw [hstep, hnormal]

/-- The identity instance (zero translation, unit quaternion) lowers to the
identity model matrix. -/
lemma exInstance_model :
    (Instance.mk ⟨0, 0, 0⟩ ⟨1, 0, 0, 0⟩).modelMatrix = 1 := by
  ext a b
  fin_cases a <;> fin_cases b <;>
    simp [Instance.modelMatrix, fromTranslation, quatToMat4, Matrix.mul_apply,
      Fin.sum_univ_four, Matrix.one_apply, Matrix.vecHead, Matrix.vecTail]

/-- Witness for C8 at the identity instance. -/
theorem to_raw_normal_matrix_witness :
    ((Instance.mk ⟨0, 0, 0⟩ ⟨1, 0, 0, 0⟩).modelMatrix.det ≠ 0) ∧
    (Instance.mk ⟨0, 0, 0⟩ ⟨1, 0, 0, 0⟩).to_raw
      = some { model := (Instance.mk ⟨0, 0, 0⟩ ⟨1, 0, 0, 0⟩).modelMatrix,
               normal := normalMatrixSpec (Instance.mk ⟨0, 0, 0⟩ ⟨1, 0, 0, 0⟩).modelMatrix } := by
  have hdet : (Instance.mk ⟨0, 0, 0⟩ ⟨1, 0, 0, 0⟩).modelMatrix.det ≠ 0 := by
    rw [exInstance_model, Matrix.det_one]
    norm_num
  exact ⟨hdet, to_raw_normal_matrix _ hdet⟩

/-- C10: `Instance::to_raw` (through `InstanceRaw::new`) panics — modelled
by `none` — exactly on instances whose 4x4 model matrix is not invertible;
with an invertible model matrix it totally produces a record. -/
theorem to_raw_total_iff_invertible (i : Instance) :
    (i.to_raw).isSome ↔ i.modelMatrix.det ≠ 0 := by
  by_cases h : i.modelMatrix.det = 0 <;>
    simp [Instance.to_raw, InstanceRaw.new, invert4, h]

end
